import Mathlib

/-!
Shallow embedding of the `gfx_scene` repository (crates `gfx_phase` and
`gfx_scene`): the phase/queue/cache subsystem of `src/phase/phase.rs` and the
scene-traversal orchestration of `src/scene/lib.rs`.

External collaborator types (GPU resources, programs, pipeline states, shader
parameter blocks, slices, errors, view information) are abstract type
parameters.  Mutation in the Rust source becomes explicit state passing; calls
into external collaborators that the specification constrains (technique
compilation, device batch creation, renderer submission) are recorded in
explicit event/command logs so that "is invoked at most once" style properties
are statable.
-/

/-- Embeds `gfx::Mesh`: the fields `Phase::enqueue` actually touches,
a vertex count and an attribute list (attribute type abstract). -/
structure Mesh (A : Type) where
  num_vertices : Nat
  attributes : List A
  deriving DecidableEq, Repr

/-- Embeds the `gfx_phase::Entity` trait view used by `Phase::enqueue`:
`get_material` and `get_mesh` (mesh plus slice). -/
structure Entity (Mt A Sl : Type) where
  material : Mt
  mesh : Mesh A
  slice : Sl

/-- Embeds the `gfx_phase::Technique` trait: `test` yields the essence key when
the phase applies, `compile` resolves an essence and view into
(program, parameters, optional instance mesh, state), and `fix_params`
patches a parameter block per instance (Rust mutates in place; here it
returns the new block). -/
structure Technique (K Mt A V Prog Prm St : Type) where
  test : Mesh A → Mt → Option K
  compile : K → V → Prog × Prm × Option (Mesh A) × St
  fix_params : Mt → V → Prm → Prm

/-- Embeds `Object<S, P>` from `src/phase/phase.rs`: a queued draw object
holding the bound batch, parameter block, geometry slice and sort depth. -/
structure Object (S Prm B Sl : Type) where
  batch : B
  params : Prm
  slice : Sl
  depth : S
  deriving DecidableEq, Repr

/-- Embeds `Object::cmp_depth`: `partial_cmp` on depth with incomparable
results collapsed to `Equal` (`unwrap_or(Ordering::Equal)`).  The partial
comparison of the abstract depth type is the parameter `pcmp`. -/
def cmpDepth {S Prm B Sl : Type} (pcmp : S → S → Option Ordering)
    (a b : Object S Prm B Sl) : Ordering :=
  (pcmp a.depth b.depth).getD Ordering.eq

/-- Embeds `pub enum Sort` (named `SortMethod` because `Sort` is reserved
in Lean). -/
inductive SortMethod
  | FrontToBack
  | BackToFront
  | Program
  | Mesh
  | DrawState
  deriving DecidableEq, Repr

/-- Events recording `Phase::enqueue`'s calls into external collaborators:
`Technique::compile` (with its essence key) and
`gfx::batch::Context::make_core`. -/
inductive Ev (K : Type)
  | compile (k : K)
  | makeCore
  deriving DecidableEq, Repr

/-- Embeds `Phase<R, M, V, T, Y>` with the memoizing cache
(`Phase::new_cached`, `Y = CacheMap`).  The cache is the map
`memory : K → Option (Except Er Object)`.
Modelled from the spec: the `mem` module (trait `Memory`, type `MemResult`)
is not under `src/`; per the spec the cache contract is
`lookup(key) -> Option<Result<DrawObject, CompileError>>` and
`store(key, result)` where store overwrites any prior entry for the key,
realised here as a total function into `Option`. -/
structure Phase (K Mt A V S Prog Prm St B Sl Er : Type) where
  name : String
  technique : Technique K Mt A V Prog Prm St
  memory : K → Option (Except Er (Object S Prm B Sl))
  sort : List SortMethod
  queue : List (Object S Prm B Sl)

variable {K Mt A V S Prog Prm St B Sl Er FE : Type}

/-- The temporary mesh construction of `Phase::enqueue` (lines 159-167):
when the technique supplies an instance mesh its attributes are appended to
the entity mesh's attributes, otherwise the entity mesh is used as is. -/
def instancedMesh (orig_mesh : Mesh A) : Option (Mesh A) → Mesh A
  | some m => { num_vertices := orig_mesh.num_vertices,
                attributes := orig_mesh.attributes ++ m.attributes }
  | none => orig_mesh

/-- Embeds `Phase::enqueue` from `src/phase/phase.rs` (lines 134-182).
The device context's `make_core` is the abstract parameter `mk`; the
`ToDepth` bound on the view type is the parameter `toDepth`.  The result is
`none` exactly when the source panics (the `.unwrap()` on a failed
`technique.test`); otherwise it is the updated phase, the log of external
calls made, and the `Result` the source returns. -/
def Phase.enqueue [DecidableEq K]
    (ph : Phase K Mt A V S Prog Prm St B Sl Er)
    (entity : Entity Mt A Sl) (view_info : V)
    (toDepth : V → S) (mk : Prog → Mesh A → St → Except Er B) :
    Option (Phase K Mt A V S Prog Prm St B Sl Er × List (Ev K) × Except Er Unit) :=
  match ph.technique.test entity.mesh entity.material with
  | none => none
  | some essense =>
    let orig_mesh := entity.mesh
    let slice := entity.slice
    -- Try recalling from memory
    match ph.memory essense with
    | some (Except.ok o) =>
      let o2 : Object S Prm B Sl :=
        { o with slice := slice,
                 params := ph.technique.fix_params entity.material view_info o.params }
      some ({ ph with queue := ph.queue ++ [o2] }, [], Except.ok ())
    | some (Except.error e) => some (ph, [], Except.error e)
    | none =>
      -- Compile with the technique
      let depth := toDepth view_info
      let c := ph.technique.compile essense view_info
      let program := c.1
      let params := ph.technique.fix_params entity.material view_info c.2.1
      let inst_mesh := c.2.2.1
      let state := c.2.2.2
      let mesh : Mesh A := instancedMesh orig_mesh inst_mesh
      -- Create queue object
      let object : Except Er (Object S Prm B Sl) :=
        (mk program mesh state).map fun b =>
          { batch := b, params := params, slice := slice, depth := depth }
      -- Remember and return
      let mem2 : K → Option (Except Er (Object S Prm B Sl)) :=
        fun k => if k = essense then some object else ph.memory k
      match object with
      | Except.ok o =>
        some ({ ph with memory := mem2, queue := ph.queue ++ [o] },
              [Ev.compile essense, Ev.makeCore], Except.ok ())
      | Except.error e =>
        some ({ ph with memory := mem2 },
              [Ev.compile essense, Ev.makeCore], Except.error e)

/-- Runs a sequence of `enqueue` calls, threading the phase state and
concatenating the external-call logs.  A panic (`none`) aborts the run,
as it aborts the process in the source. -/
def runEnqueues [DecidableEq K]
    (toDepth : V → S) (mk : Prog → Mesh A → St → Except Er B) :
    Phase K Mt A V S Prog Prm St B Sl Er → List (Entity Mt A Sl × V) →
    Phase K Mt A V S Prog Prm St B Sl Er × List (Ev K)
  | ph, [] => (ph, [])
  | ph, (e, v) :: rest =>
    match ph.enqueue e v toDepth mk with
    | none => (ph, [])
    | some (ph1, evs, _) =>
      let r := runEnqueues toDepth mk ph1 rest
      (r.1, evs ++ r.2)

/-- Number of `Technique::compile` invocations with essence key `k` in an
event log. -/
def countCompile [DecidableEq K] (k : K) (l : List (Ev K)) : Nat :=
  (l.filter (fun e => e = Ev.compile k)).length

/-- Insert an element into a list in front of the first entry it is
`le`-below-or-equal to. -/
def insertLe {α : Type} (le : α → α → Bool) (a : α) : List α → List α
  | [] => [a]
  | b :: l => if le a b then a :: b :: l else b :: insertLe le a l

/-- Modelled from the spec: `draw_queue::Queue::sort` (the `draw_queue`
crate is external to `src/`), described as a stable bulk sort by a supplied
comparator; realised as the stable insertion sort by the order
`le a b := comparator a b ≠ Greater`. -/
def stableSortBy {α : Type} (le : α → α → Bool) : List α → List α
  | [] => []
  | a :: l => insertLe le a (stableSortBy le l)

/-- The queue reordering step of `Phase::flush` (lines 188-201): match on
`self.sort.first()` and sort by the corresponding comparator, or leave the
queue untouched when no criterion is configured. -/
def sortQueue (pcmp : S → S → Option Ordering)
    (cmpProg cmpMesh cmpState : B → B → Ordering)
    (crit : Option SortMethod) (q : List (Object S Prm B Sl)) :
    List (Object S Prm B Sl) :=
  match crit with
  | some SortMethod.FrontToBack =>
    stableSortBy (fun a b => cmpDepth pcmp a b ≠ Ordering.gt) q
  | some SortMethod.BackToFront =>
    stableSortBy (fun a b => cmpDepth pcmp b a ≠ Ordering.gt) q
  | some SortMethod.Program =>
    stableSortBy (fun a b => cmpProg a.batch b.batch ≠ Ordering.gt) q
  | some SortMethod.Mesh =>
    stableSortBy (fun a b => cmpMesh a.batch b.batch ≠ Ordering.gt) q
  | some SortMethod.DrawState =>
    stableSortBy (fun a b => cmpState a.batch b.batch ≠ Ordering.gt) q
  | none => q

/-- The submission loop of `Phase::flush` (lines 202-208): call
`renderer.draw` on each object in order; on the first error stop and return
it.  The first component is the log of objects on which `renderer.draw` was
invoked, in invocation order. -/
def submitAll (draw : Object S Prm B Sl → Except FE Unit) :
    List (Object S Prm B Sl) → List (Object S Prm B Sl) × Except FE Unit
  | [] => ([], Except.ok ())
  | o :: rest =>
    match draw o with
    | Except.ok _ =>
      let p := submitAll draw rest
      (o :: p.1, p.2)
    | Except.error e => ([o], Except.error e)

/-- Embeds `Phase::flush` (lines 184-212): sort the queue by at most the
first criterion, submit in order, and clear the queue only on the success
path (the `return e` on a draw error skips `queue.objects.clear()`, so the
sorted queue is retained).  Returns the phase, the submission log, and the
result. -/
def Phase.flush (ph : Phase K Mt A V S Prog Prm St B Sl Er)
    (pcmp : S → S → Option Ordering)
    (cmpProg cmpMesh cmpState : B → B → Ordering)
    (draw : Object S Prm B Sl → Except FE Unit) :
    Phase K Mt A V S Prog Prm St B Sl Er × List (Object S Prm B Sl) × Except FE Unit :=
  let q := sortQueue pcmp cmpProg cmpMesh cmpState ph.sort.head? ph.queue
  let p := submitAll draw q
  match p.2 with
  | Except.ok _ => ({ ph with queue := [] }, p.1, Except.ok ())
  | Except.error e => ({ ph with queue := q }, p.1, Except.error e)

/-- Embeds `gfx_scene::Error` from `src/scene/lib.rs` (lines 19-25): an
enqueue-stage failure is wrapped as `Batch`, a flush-stage failure as
`Flush`. -/
inductive SceneErr (BE FEr : Type)
  | Batch (e : BE)
  | Flush (e : FEr)
  deriving DecidableEq, Repr

/-- The three phase-trait operations `Scene::draw` invokes, in the order it
invokes them, recorded as a trace. -/
inductive Stage
  | enqueueAll
  | sortStage
  | flushStage
  deriving DecidableEq, Repr

/-- Output of the embedded `Scene::draw`: final phase state, the objects the
flush submitted, the trace of phase operations invoked, and the result. -/
structure SceneOut (PS Obj BE FEr : Type) where
  phase : PS
  cmds : List Obj
  trace : List Stage
  result : Except (SceneErr BE FEr) Unit

/-- Embeds `Scene::draw` from `src/scene/lib.rs` (lines 158-176).  The phase
is a trait object there; its three operations are the abstract parameters
`enqueue_all` (the whole per-entity enqueue stage, entities/world/camera
already applied), `sortPh` and `flushPh`.  The source enqueues all entities,
returning any enqueue error wrapped as `Error::Batch` without flushing;
otherwise it sorts, flushes once, and wraps a flush error as
`Error::Flush`. -/
def sceneDraw {PS Obj BE FEr : Type}
    (enqueue_all : PS → PS × Except BE Unit)
    (sortPh : PS → PS)
    (flushPh : PS → PS × List Obj × Except FEr Unit)
    (ph : PS) : SceneOut PS Obj BE FEr :=
  let e1 := enqueue_all ph
  match e1.2 with
  | Except.error e => ⟨e1.1, [], [Stage.enqueueAll], Except.error (SceneErr.Batch e)⟩
  | Except.ok _ =>
    let ph2 := sortPh e1.1
    let f := flushPh ph2
    match f.2.2 with
    | Except.ok _ =>
      ⟨f.1, f.2.1, [Stage.enqueueAll, Stage.sortStage, Stage.flushStage], Except.ok ()⟩
    | Except.error e =>
      ⟨f.1, f.2.1, [Stage.enqueueAll, Stage.sortStage, Stage.flushStage],
        Except.error (SceneErr.Flush e)⟩

/-- Renderer commands recorded by `PhaseHarness::draw`: the `reset`, the
optional `clear`, and the draw submissions the phases issue. -/
inductive Cmd (CD Obj : Type)
  | reset
  | clear (d : CD)
  | draw (o : Obj)
  deriving DecidableEq, Repr

/-- One phase of the harness as observed through `scene.draw`: the draw
commands it issues to the shared renderer and its result (the camera and
frame are fixed for the whole harness draw call). -/
structure PhaseRun (Obj E : Type) where
  draws : List Obj
  result : Except E Unit

/-- The phase loop of `PhaseHarness::draw` (lines 243-248): run the phases
in list order against the shared renderer, returning the first error; the
command log keeps everything issued up to and including the failing
phase. -/
def runPhases {Obj E : Type} : List (PhaseRun Obj E) → List Obj × Except E Unit
  | [] => ([], Except.ok ())
  | p :: ps =>
    match p.result with
    | Except.error e => (p.draws, Except.error e)
    | Except.ok _ =>
      let r := runPhases ps
      (p.draws ++ r.1, r.2)

/-- The clear step of `PhaseHarness::draw` (lines 239-242): one clear
command when clear data is configured, nothing otherwise. -/
def clearCmds {CD Obj : Type} : Option CD → List (Cmd CD Obj)
  | some d => [Cmd.clear d]
  | none => []

/-- Draw commands issued by a list of phase runs, in list order. -/
def drawsOf {Obj E : Type} (l : List (PhaseRun Obj E)) : List Obj :=
  l.foldr (fun p acc => p.draws ++ acc) []

/-- Embeds `PhaseHarness::draw` from `src/scene/lib.rs` (lines 234-250):
reset the renderer, apply the clear only when clear data is configured, run
the phases in order stopping at the first error, and on success return the
accumulated command buffer.  The first component is the renderer's command
log; the result carries the buffer on success. -/
def harnessDraw {CD Obj E : Type} (clear : Option CD)
    (phases : List (PhaseRun Obj E)) :
    List (Cmd CD Obj) × Except E (List (Cmd CD Obj)) :=
  let pre : List (Cmd CD Obj) := Cmd.reset :: clearCmds clear
  let r := runPhases phases
  let log := pre ++ r.1.map Cmd.draw
  match r.2 with
  | Except.ok _ => (log, Except.ok log)
  | Except.error e => (log, Except.error e)

/-- Concrete partial comparison used in witnesses: `Option Int` with `none`
playing the role of a floating-point NaN (incomparable with everything,
itself included), mirroring `f32::partial_cmp`. -/
def fpcmp : Option Int → Option Int → Option Ordering
  | some x, some y =>
    some (if x < y then Ordering.lt else if y < x then Ordering.gt else Ordering.eq)
  | _, _ => none

/-! ## Concrete instances used to evaluate the development

Types: essence keys are `Nat`, view information is `Int`, depth is
`Option Int` (with `none` as NaN), parameters are `Int`, slices are `Int`,
and materials, attributes, programs, states, batches and errors are
`Unit`. -/

/-- A test technique: every entity applies with essence `0`, compilation
returns the view as the base parameter block, and `fix_params` adds the
view to the parameters. -/
def wTech : Technique Nat Unit Unit Int Unit Int Unit :=
  { test := fun _ _ => some 0,
    compile := fun _ v => ((), v, none, ()),
    fix_params := fun _ v p => p + v }

/-- A test technique that rejects every entity. -/
def wTechNone : Technique Nat Unit Unit Int Unit Int Unit :=
  { wTech with test := fun _ _ => none }

/-- Depth of a view: the view value itself, always comparable. -/
def wToDepth : Int → Option Int := fun v => some v

/-- A device context whose `make_core` always succeeds. -/
def wMk : Unit → Mesh Unit → Unit → Except Unit Unit := fun _ _ _ => Except.ok ()

/-- A test entity with slice `5`. -/
def wEntity : Entity Unit Unit Int :=
  { material := (), mesh := { num_vertices := 3, attributes := [] }, slice := 5 }

/-- A second test entity with slice `9`. -/
def wEntity2 : Entity Unit Unit Int :=
  { material := (), mesh := { num_vertices := 3, attributes := [] }, slice := 9 }

/-- A draw object at a given depth. -/
def wObj (d : Option Int) : Object (Option Int) Int Unit Int :=
  { batch := (), params := 0, slice := 0, depth := d }

/-- A fresh cached phase: empty memory, no sort criteria, empty queue. -/
def wPhase : Phase Nat Unit Unit Int (Option Int) Unit Int Unit Unit Int Unit :=
  { name := "main", technique := wTech, memory := fun _ => none,
    sort := [], queue := [] }

/-- `wPhase` with a cached successful object under key `0`. -/
def wPhaseHit : Phase Nat Unit Unit Int (Option Int) Unit Int Unit Unit Int Unit :=
  { wPhase with
    memory := fun k => if k = 0 then some (Except.ok (wObj (some 7))) else none }

/-- `wPhase` with a cached failure under key `0`. -/
def wPhaseErrC : Phase Nat Unit Unit Int (Option Int) Unit Int Unit Unit Int Unit :=
  { wPhase with
    memory := fun k => if k = 0 then some (Except.error ()) else none }

/-- `wPhase` with a technique that rejects every entity. -/
def wPhaseNoTest : Phase Nat Unit Unit Int (Option Int) Unit Int Unit Unit Int Unit :=
  { wPhase with technique := wTechNone }

/-- The state of `wPhase` after one successful `enqueue` of `wEntity` with
view `1`: the compiled object (parameters `1 + 1`, slice `5`, depth
`some 1`) is cached under key `0` and queued. -/
def wStepPh : Phase Nat Unit Unit Int (Option Int) Unit Int Unit Unit Int Unit :=
  { wPhase with
    memory := fun k2 => if k2 = 0 then
        some (Except.ok { batch := (), params := 2, slice := 5, depth := some 1 })
      else none,
    queue := [{ batch := (), params := 2, slice := 5, depth := some 1 }] }

/-- `wPhase` with front-to-back sorting and a queue holding depths
`3`, NaN, `1`. -/
def wPhaseFtB : Phase Nat Unit Unit Int (Option Int) Unit Int Unit Unit Int Unit :=
  { wPhase with
    sort := [SortMethod.FrontToBack, SortMethod.Mesh],
    queue := [wObj (some 3), wObj none, wObj (some 1)] }

/-- `wPhase` with back-to-front sorting and the same queue. -/
def wPhaseBtF : Phase Nat Unit Unit Int (Option Int) Unit Int Unit Unit Int Unit :=
  { wPhase with
    sort := [SortMethod.BackToFront],
    queue := [wObj (some 3), wObj none, wObj (some 1)] }

/-- `wPhase` with a single queued object and no sort criteria. -/
def wPhaseOne : Phase Nat Unit Unit Int (Option Int) Unit Int Unit Unit Int Unit :=
  { wPhase with queue := [wObj (some 0)] }

/-- `wPhase` with three queued objects at depths `1`, `2`, `3`. -/
def wPhaseQ3 : Phase Nat Unit Unit Int (Option Int) Unit Int Unit Unit Int Unit :=
  { wPhase with queue := [wObj (some 1), wObj (some 2), wObj (some 3)] }

/-- Trivial batch comparators for the grouping criteria. -/
def wCmpB : Unit → Unit → Ordering := fun _ _ => Ordering.eq

/-- A renderer that accepts every draw. -/
def wDrawOk : Object (Option Int) Int Unit Int → Except Unit Unit :=
  fun _ => Except.ok ()

/-- A renderer that rejects every draw. -/
def wDrawErr : Object (Option Int) Int Unit Int → Except Unit Unit :=
  fun _ => Except.error ()

/-- A renderer that rejects exactly the object at depth `2`. -/
def wDrawSel : Object (Option Int) Int Unit Int → Except Unit Unit :=
  fun o => if o.depth = some 2 then Except.error () else Except.ok ()

/-- An enqueue stage that succeeds. -/
def wEa : Nat → Nat × Except Unit Unit := fun s => (s + 1, Except.ok ())

/-- An enqueue stage that fails. -/
def wEaErr : Nat → Nat × Except Unit Unit := fun s => (s, Except.error ())

/-- The sorting stage of the abstract phase. -/
def wSp : Nat → Nat := id

/-- A flush stage that submits one draw and succeeds. -/
def wFp : Nat → Nat × List Nat × Except Unit Unit := fun s => (s, [7], Except.ok ())

/-- A flush stage that submits one draw and fails. -/
def wFpErr : Nat → Nat × List Nat × Except Unit Unit :=
  fun s => (s, [7], Except.error ())

/-- A harness phase run that issues two draws and succeeds. -/
def wRunOk : PhaseRun Nat Unit := { draws := [1, 2], result := Except.ok () }

/-- A harness phase run that issues one draw and fails. -/
def wRunBad : PhaseRun Nat Unit := { draws := [3], result := Except.error () }

/-! ## Characterisation lemmas for `Phase.enqueue` -/

lemma enqueue_test_none [DecidableEq K]
    (ph : Phase K Mt A V S Prog Prm St B Sl Er) (entity : Entity Mt A Sl)
    (view_info : V) (toDepth : V → S) (mk : Prog → Mesh A → St → Except Er B)
    (htest : ph.technique.test entity.mesh entity.material = none) :
    ph.enqueue entity view_info toDepth mk = none := by
  simp [Phase.enqueue, htest]

lemma enqueue_hit [DecidableEq K]
    (ph : Phase K Mt A V S Prog Prm St B Sl Er) (entity : Entity Mt A Sl)
    (view_info : V) (toDepth : V → S) (mk : Prog → Mesh A → St → Except Er B)
    (k : K) (o : Object S Prm B Sl)
    (htest : ph.technique.test entity.mesh entity.material = some k)
    (hmem : ph.memory k = some (Except.ok o)) :
    ph.enqueue entity view_info toDepth mk =
      some ({ ph with queue := ph.queue ++
          [{ o with slice := entity.slice,
                    params := ph.technique.fix_params entity.material view_info o.params }] },
        [], Except.ok ()) := by
  simp [Phase.enqueue, htest, hmem]

lemma enqueue_hit_err [DecidableEq K]
    (ph : Phase K Mt A V S Prog Prm St B Sl Er) (entity : Entity Mt A Sl)
    (view_info : V) (toDepth : V → S) (mk : Prog → Mesh A → St → Except Er B)
    (k : K) (er : Er)
    (htest : ph.technique.test entity.mesh entity.material = some k)
    (hmem : ph.memory k = some (Except.error er)) :
    ph.enqueue entity view_info toDepth mk = some (ph, [], Except.error er) := by
  simp [Phase.enqueue, htest, hmem]

lemma enqueue_miss_ok [DecidableEq K]
    (ph : Phase K Mt A V S Prog Prm St B Sl Er) (entity : Entity Mt A Sl)
    (view_info : V) (toDepth : V → S) (mk : Prog → Mesh A → St → Except Er B)
    (k : K) (b : B)
    (htest : ph.technique.test entity.mesh entity.material = some k)
    (hmem : ph.memory k = none)
    (hmk : mk (ph.technique.compile k view_info).1
        (instancedMesh entity.mesh (ph.technique.compile k view_info).2.2.1)
        (ph.technique.compile k view_info).2.2.2 = Except.ok b) :
    ph.enqueue entity view_info toDepth mk =
      some ({ ph with
          memory := fun k2 => if k2 = k then
              some (Except.ok
                { batch := b,
                  params := ph.technique.fix_params entity.material view_info
                    (ph.technique.compile k view_info).2.1,
                  slice := entity.slice,
                  depth := toDepth view_info })
            else ph.memory k2,
          queue := ph.queue ++
            [{ batch := b,
               params := ph.technique.fix_params entity.material view_info
                 (ph.technique.compile k view_info).2.1,
               slice := entity.slice,
               depth := toDepth view_info }] },
        [Ev.compile k, Ev.makeCore], Except.ok ()) := by
  simp [Phase.enqueue, htest, hmem, hmk, Except.map]

lemma enqueue_miss_err [DecidableEq K]
    (ph : Phase K Mt A V S Prog Prm St B Sl Er) (entity : Entity Mt A Sl)
    (view_info : V) (toDepth : V → S) (mk : Prog → Mesh A → St → Except Er B)
    (k : K) (er : Er)
    (htest : ph.technique.test entity.mesh entity.material = some k)
    (hmem : ph.memory k = none)
    (hmk : mk (ph.technique.compile k view_info).1
        (instancedMesh entity.mesh (ph.technique.compile k view_info).2.2.1)
        (ph.technique.compile k view_info).2.2.2 = Except.error er) :
    ph.enqueue entity view_info toDepth mk =
      some ({ ph with
          memory := fun k2 => if k2 = k then some (Except.error er) else ph.memory k2 },
        [Ev.compile k, Ev.makeCore], Except.error er) := by
  simp [Phase.enqueue, htest, hmem, hmk, Except.map]

/-- Every successful `enqueue` call either makes no external calls and leaves
the cache untouched, or performs exactly one `compile` and one `make_core`
for a key that was not cached and caches a result for that key. -/
lemma enqueue_cases [DecidableEq K]
    (ph ph1 : Phase K Mt A V S Prog Prm St B Sl Er) (entity : Entity Mt A Sl)
    (view_info : V) (toDepth : V → S) (mk : Prog → Mesh A → St → Except Er B)
    (evs : List (Ev K)) (r : Except Er Unit)
    (h : ph.enqueue entity view_info toDepth mk = some (ph1, evs, r)) :
    (evs = [] ∧ ph1.memory = ph.memory) ∨
    (∃ k0 y, evs = [Ev.compile k0, Ev.makeCore] ∧ ph.memory k0 = none ∧
       ph1.memory = fun k2 => if k2 = k0 then some y else ph.memory k2) := by
  rcases htest : ph.technique.test entity.mesh entity.material with _ | k0
  · rw [enqueue_test_none ph entity view_info toDepth mk htest] at h
    exact absurd h (by simp)
  · rcases hmem : ph.memory k0 with _ | x
    · rcases hmk : mk (ph.technique.compile k0 view_info).1
          (instancedMesh entity.mesh (ph.technique.compile k0 view_info).2.2.1)
          (ph.technique.compile k0 view_info).2.2.2 with er | b
      · rw [enqueue_miss_err ph entity view_info toDepth mk k0 er htest hmem hmk] at h
        simp only [Option.some.injEq, Prod.mk.injEq] at h
        obtain ⟨hph, hevs, hr⟩ := h
        subst hph
        exact Or.inr ⟨k0, Except.error er, hevs.symm, hmem, rfl⟩
      · rw [enqueue_miss_ok ph entity view_info toDepth mk k0 b htest hmem hmk] at h
        simp only [Option.some.injEq, Prod.mk.injEq] at h
        obtain ⟨hph, hevs, hr⟩ := h
        subst hph
        exact Or.inr ⟨k0, _, hevs.symm, hmem, rfl⟩
    · rcases x with er | o
      · rw [enqueue_hit_err ph entity view_info toDepth mk k0 er htest hmem] at h
        simp only [Option.some.injEq, Prod.mk.injEq] at h
        obtain ⟨hph, hevs, hr⟩ := h
        subst hph
        exact Or.inl ⟨hevs.symm, rfl⟩
      · rw [enqueue_hit ph entity view_info toDepth mk k0 o htest hmem] at h
        simp only [Option.some.injEq, Prod.mk.injEq] at h
        obtain ⟨hph, hevs, hr⟩ := h
        subst hph
        exact Or.inl ⟨hevs.symm, rfl⟩

/-- A cached entry survives any later `enqueue` call unchanged. -/
lemma enqueue_memory_mono [DecidableEq K]
    (ph ph1 : Phase K Mt A V S Prog Prm St B Sl Er) (entity : Entity Mt A Sl)
    (view_info : V) (toDepth : V → S) (mk : Prog → Mesh A → St → Except Er B)
    (evs : List (Ev K)) (r : Except Er Unit) (k : K)
    (y : Except Er (Object S Prm B Sl))
    (h : ph.enqueue entity view_info toDepth mk = some (ph1, evs, r))
    (hk : ph.memory k = some y) : ph1.memory k = some y := by
  rcases enqueue_cases ph ph1 entity view_info toDepth mk evs r h with
    ⟨-, hm⟩ | ⟨k0, y0, -, hnone, hm⟩
  · rw [hm, hk]
  · rw [hm]
    have : k ≠ k0 := fun he => by rw [he, hnone] at hk; exact Option.noConfusion hk
    simp [this, hk]

lemma countCompile_nil [DecidableEq K] (k : K) : countCompile k [] = 0 := rfl

lemma countCompile_append [DecidableEq K] (k : K) (l1 l2 : List (Ev K)) :
    countCompile k (l1 ++ l2) = countCompile k l1 + countCompile k l2 := by
  simp [countCompile]

/-- A single `enqueue` call compiles key `k` at most once, and not at all
when `k` is already cached. -/
lemma enqueue_countCompile [DecidableEq K]
    (ph ph1 : Phase K Mt A V S Prog Prm St B Sl Er) (entity : Entity Mt A Sl)
    (view_info : V) (toDepth : V → S) (mk : Prog → Mesh A → St → Except Er B)
    (evs : List (Ev K)) (r : Except Er Unit) (k : K)
    (h : ph.enqueue entity view_info toDepth mk = some (ph1, evs, r)) :
    countCompile k evs ≤ 1 ∧
    (ph.memory k ≠ none → countCompile k evs = 0) ∧
    (countCompile k evs ≠ 0 → ph1.memory k ≠ none) := by
  rcases enqueue_cases ph ph1 entity view_info toDepth mk evs r h with
    ⟨hevs, -⟩ | ⟨k0, y0, hevs, hnone, hm⟩
  · subst hevs
    exact ⟨Nat.zero_le 1, fun _ => rfl, fun hc => absurd rfl hc⟩
  · subst hevs
    by_cases hk : k = k0
    · subst hk
      refine ⟨by simp [countCompile], fun hne => absurd hnone hne, fun _ => ?_⟩
      rw [hm]
      simp
    · have h0 : countCompile k [Ev.compile k0, Ev.makeCore] = 0 := by
        simp [countCompile, hk, Ne.symm hk]
      exact ⟨by rw [h0]; exact Nat.zero_le 1, fun _ => h0, fun hc => absurd h0 hc⟩

/-- Over a whole run, once key `k` is cached it is never compiled again. -/
lemma run_no_compile_of_mem [DecidableEq K]
    (toDepth : V → S) (mk : Prog → Mesh A → St → Except Er B) (k : K) :
    ∀ (calls : List (Entity Mt A Sl × V))
      (ph : Phase K Mt A V S Prog Prm St B Sl Er),
      ph.memory k ≠ none →
      countCompile k (runEnqueues toDepth mk ph calls).2 = 0
  | [], ph, _ => rfl
  | (e, v) :: rest, ph, hmem => by
    rw [runEnqueues]
    rcases henq : ph.enqueue e v toDepth mk with _ | ⟨ph1, evs, r⟩
    · rfl
    · simp only [countCompile_append]
      rcases Option.ne_none_iff_exists'.mp hmem with ⟨y, hy⟩
      have h1 := (enqueue_countCompile ph ph1 e v toDepth mk evs r k henq).2.1 hmem
      have h2 : ph1.memory k = some y :=
        enqueue_memory_mono ph ph1 e v toDepth mk evs r k y henq hy
      have h3 := run_no_compile_of_mem toDepth mk k rest ph1 (by rw [h2]; exact fun hc => Option.noConfusion hc)
      omega

/-- Over a whole run of `enqueue` calls, each essence key is compiled at
most once. -/
lemma run_countCompile_le_one [DecidableEq K]
    (toDepth : V → S) (mk : Prog → Mesh A → St → Except Er B) (k : K) :
    ∀ (calls : List (Entity Mt A Sl × V))
      (ph : Phase K Mt A V S Prog Prm St B Sl Er),
      countCompile k (runEnqueues toDepth mk ph calls).2 ≤ 1
  | [], _ => Nat.zero_le 1
  | (e, v) :: rest, ph => by
    rw [runEnqueues]
    rcases henq : ph.enqueue e v toDepth mk with _ | ⟨ph1, evs, r⟩
    · exact Nat.zero_le 1
    · simp only [countCompile_append]
      obtain ⟨hle, -, hafter⟩ := enqueue_countCompile ph ph1 e v toDepth mk evs r k henq
      by_cases hz : countCompile k evs = 0
      · rw [hz]
        simpa using run_countCompile_le_one toDepth mk k rest ph1
      · have := run_no_compile_of_mem toDepth mk k rest ph1 (hafter hz)
        omega

/-! ## Sorting and submission lemmas -/

lemma insertLe_head {α : Type} (le : α → α → Bool) (a : α) (l : List α) :
    (insertLe le a l).head? = some a ∨ (insertLe le a l).head? = l.head? := by
  cases l with
  | nil => exact Or.inl rfl
  | cons b t =>
    rw [insertLe]
    by_cases hab : le a b
    · rw [if_pos hab]
      exact Or.inl rfl
    · rw [if_neg hab]
      exact Or.inr rfl

/-- Inserting into a chain keeps the chain, provided the order is total. -/
lemma chain_insertLe {α : Type} (le : α → α → Bool)
    (htot : ∀ a b, le a b || le b a) (a : α) :
    ∀ l : List α, List.Chain' (fun x y => le x y = true) l →
      List.Chain' (fun x y => le x y = true) (insertLe le a l)
  | [], _ => List.chain'_singleton a
  | b :: t, h => by
    rw [insertLe]
    by_cases hab : le a b
    · rw [if_pos hab]
      exact List.chain'_cons.mpr ⟨hab, h⟩
    · rw [if_neg hab]
      refine List.chain'_cons'.mpr ⟨?_, chain_insertLe le htot a t (List.Chain'.tail h)⟩
      intro y hy
      have hba : le b a = true := by
        have := htot a b
        rw [Bool.eq_false_iff.mpr hab] at this
        simpa using this
      rcases insertLe_head le a t with hh | hh
      · rw [hh] at hy
        cases hy
        exact hba
      · rw [hh] at hy
        exact (List.chain'_cons'.mp h).1 y hy

/-- A stable comparator sort yields an adjacently non-decreasing list for
every total order. -/
lemma chain_stableSortBy {α : Type} (le : α → α → Bool)
    (htot : ∀ a b, le a b || le b a) :
    ∀ l : List α, List.Chain' (fun x y => le x y = true) (stableSortBy le l)
  | [] => List.chain'_nil
  | a :: t => chain_insertLe le htot a (stableSortBy le t) (chain_stableSortBy le htot t)

/-- The submission log is an order-preserving prefix of the queue. -/
lemma submitAll_log_initial (draw : Object S Prm B Sl → Except FE Unit) :
    ∀ l : List (Object S Prm B Sl), ∃ t, l = (submitAll draw l).1 ++ t
  | [] => ⟨[], rfl⟩
  | o :: rest => by
    rw [submitAll]
    rcases hdo : draw o with e | u
    · exact ⟨rest, rfl⟩
    · rcases submitAll_log_initial draw rest with ⟨t, ht⟩
      exact ⟨t, by simpa using ht⟩

/-- If every submission succeeds, the whole queue is submitted in order and
the loop returns success. -/
lemma submitAll_all_ok (draw : Object S Prm B Sl → Except FE Unit) :
    ∀ l : List (Object S Prm B Sl), (∀ o ∈ l, draw o = Except.ok ()) →
      submitAll draw l = (l, Except.ok ())
  | [], _ => rfl
  | o :: rest, h => by
    rw [submitAll, h o (List.mem_cons_self o rest),
      submitAll_all_ok draw rest (fun x hx => h x (List.mem_cons_of_mem o hx))]

/-- The first failing submission stops the loop: everything before it was
submitted, nothing after it is attempted. -/
lemma submitAll_first_error (draw : Object S Prm B Sl → Except FE Unit)
    (o : Object S Prm B Sl) (post : List (Object S Prm B Sl)) (e : FE)
    (ho : draw o = Except.error e) :
    ∀ pre : List (Object S Prm B Sl), (∀ x ∈ pre, draw x = Except.ok ()) →
      submitAll draw (pre ++ o :: post) = (pre ++ [o], Except.error e)
  | [], _ => by
    rw [List.nil_append, submitAll, ho]
    rfl
  | x :: pre, h => by
    rw [List.cons_append, submitAll, h x (List.mem_cons_self x pre),
      submitAll_first_error draw o post e ho pre
        (fun y hy => h y (List.mem_cons_of_mem x hy))]
    simp

/-- The log component of `flush` is the submission log of the sorted
queue, on the success and on the error path alike. -/
lemma flush_log (ph : Phase K Mt A V S Prog Prm St B Sl Er)
    (pcmp : S → S → Option Ordering) (cmpProg cmpMesh cmpState : B → B → Ordering)
    (draw : Object S Prm B Sl → Except FE Unit) :
    (ph.flush pcmp cmpProg cmpMesh cmpState draw).2.1 =
      (submitAll draw (sortQueue pcmp cmpProg cmpMesh cmpState ph.sort.head? ph.queue)).1 := by
  rw [Phase.flush]
  rcases (submitAll draw (sortQueue pcmp cmpProg cmpMesh cmpState ph.sort.head? ph.queue)).2 with e | u
  · rfl
  · rfl

/-- An empty queue sorts to an empty queue under every criterion. -/
lemma sortQueue_nil (pcmp : S → S → Option Ordering)
    (cmpProg cmpMesh cmpState : B → B → Ordering) (crit : Option SortMethod) :
    sortQueue pcmp cmpProg cmpMesh cmpState crit ([] : List (Object S Prm B Sl)) = [] := by
  rcases crit with _ | m
  · rfl
  · cases m <;> rfl

/-- `flush` on the success path: the queue ends up empty. -/
lemma flush_ok (ph : Phase K Mt A V S Prog Prm St B Sl Er)
    (pcmp : S → S → Option Ordering) (cmpProg cmpMesh cmpState : B → B → Ordering)
    (draw : Object S Prm B Sl → Except FE Unit)
    (h : (submitAll draw
        (sortQueue pcmp cmpProg cmpMesh cmpState ph.sort.head? ph.queue)).2 = Except.ok ()) :
    ph.flush pcmp cmpProg cmpMesh cmpState draw =
      ({ ph with queue := [] },
        (submitAll draw (sortQueue pcmp cmpProg cmpMesh cmpState ph.sort.head? ph.queue)).1,
        Except.ok ()) := by
  rw [Phase.flush]
  rw [h]

/-- `flush` on the error path: the first error is returned and the queue
retains the sorted objects. -/
lemma flush_err (ph : Phase K Mt A V S Prog Prm St B Sl Er)
    (pcmp : S → S → Option Ordering) (cmpProg cmpMesh cmpState : B → B → Ordering)
    (draw : Object S Prm B Sl → Except FE Unit) (e : FE)
    (h : (submitAll draw
        (sortQueue pcmp cmpProg cmpMesh cmpState ph.sort.head? ph.queue)).2 = Except.error e) :
    ph.flush pcmp cmpProg cmpMesh cmpState draw =
      ({ ph with queue := sortQueue pcmp cmpProg cmpMesh cmpState ph.sort.head? ph.queue },
        (submitAll draw (sortQueue pcmp cmpProg cmpMesh cmpState ph.sort.head? ph.queue)).1,
        Except.error e) := by
  rw [Phase.flush]
  rw [h]

/-- The depth order derived from a lawful partial comparison (one whose
`Greater` answers flip to `Less`) is total once incomparable pairs count as
equal. -/
lemma cmpDepth_total (pcmp : S → S → Option Ordering)
    (hpc : ∀ a b, pcmp a b = some Ordering.gt ↔ pcmp b a = some Ordering.lt)
    (a b : Object S Prm B Sl) :
    (decide (cmpDepth pcmp a b ≠ Ordering.gt) ||
     decide (cmpDepth pcmp b a ≠ Ordering.gt)) = true := by
  by_cases hab : cmpDepth pcmp a b = Ordering.gt
  · have hsome : pcmp a.depth b.depth = some Ordering.gt := by
      rcases hp : pcmp a.depth b.depth with _ | o
      · rw [cmpDepth, hp] at hab
        exact absurd hab (by simp)
      · rw [cmpDepth, hp] at hab
        simp only [Option.getD_some] at hab
        rw [hab]
    have hlt : pcmp b.depth a.depth = some Ordering.lt := (hpc a.depth b.depth).mp hsome
    have : cmpDepth pcmp b a = Ordering.lt := by rw [cmpDepth, hlt]; rfl
    simp [this]
  · simp [hab]

/-! ## `Scene::draw` and `PhaseHarness::draw` lemmas -/

/-- Running phases after an all-successful block concatenates the draws. -/
lemma runPhases_append_ok {Obj E : Type} (rest : List (PhaseRun Obj E)) :
    ∀ pre : List (PhaseRun Obj E), (∀ p ∈ pre, p.result = Except.ok ()) →
      runPhases (pre ++ rest) =
        (drawsOf pre ++ (runPhases rest).1, (runPhases rest).2)
  | [], _ => by simp [drawsOf]
  | p :: pre, h => by
    rw [List.cons_append, runPhases, h p (List.mem_cons_self p pre),
      runPhases_append_ok rest pre (fun q hq => h q (List.mem_cons_of_mem p hq))]
    simp [drawsOf]

/-- All phases succeeding: every draw is issued, in phase order. -/
lemma runPhases_all_ok {Obj E : Type} :
    ∀ phases : List (PhaseRun Obj E), (∀ p ∈ phases, p.result = Except.ok ()) →
      runPhases phases = (drawsOf phases, Except.ok ())
  | [], _ => rfl
  | p :: ps, h => by
    rw [runPhases, h p (List.mem_cons_self p ps),
      runPhases_all_ok ps (fun q hq => h q (List.mem_cons_of_mem p hq))]
    simp [drawsOf]

/-- The first failing phase stops the loop; its own draws stand, later
phases are not run. -/
lemma runPhases_first_error {Obj E : Type} (bad : PhaseRun Obj E)
    (post : List (PhaseRun Obj E)) (e : E) (hbad : bad.result = Except.error e) :
    ∀ pre : List (PhaseRun Obj E), (∀ p ∈ pre, p.result = Except.ok ()) →
      runPhases (pre ++ bad :: post) = (drawsOf pre ++ bad.draws, Except.error e) := by
  intro pre hpre
  rw [runPhases_append_ok (bad :: post) pre hpre, runPhases, hbad]

/-- The `Option Int` comparison flips `Greater` answers to `Less` ones, as
the floating-point partial order does. -/
lemma fpcmp_flip (a b : Option Int) :
    fpcmp a b = some Ordering.gt ↔ fpcmp b a = some Ordering.lt := by
  rcases a with _ | x
  · rcases b with _ | y <;> simp [fpcmp]
  · rcases b with _ | y
    · simp [fpcmp]
    · rcases lt_trichotomy x y with h | h | h
      · simp [fpcmp, h, not_lt.mpr (le_of_lt h)]
      · subst h
        simp [fpcmp]
      · simp [fpcmp, h, not_lt.mpr (le_of_lt h)]

/-- Two phases agreeing on the first sort criterion and the queue flush to
the same submissions, result and final queue. -/
lemma flush_eq_parts (ph1 ph2 : Phase K Mt A V S Prog Prm St B Sl Er)
    (pcmp : S → S → Option Ordering) (cmpProg cmpMesh cmpState : B → B → Ordering)
    (draw : Object S Prm B Sl → Except FE Unit)
    (h1 : ph1.sort.head? = ph2.sort.head?) (h2 : ph1.queue = ph2.queue) :
    (ph1.flush pcmp cmpProg cmpMesh cmpState draw).2 =
      (ph2.flush pcmp cmpProg cmpMesh cmpState draw).2 ∧
    (ph1.flush pcmp cmpProg cmpMesh cmpState draw).1.queue =
      (ph2.flush pcmp cmpProg cmpMesh cmpState draw).1.queue := by
  rw [Phase.flush, Phase.flush, h1, h2]
  rcases (submitAll draw
      (sortQueue pcmp cmpProg cmpMesh cmpState ph2.sort.head? ph2.queue)).2 with e | u
  · exact ⟨rfl, rfl⟩
  · exact ⟨rfl, rfl⟩

/-- Flushing a phase whose queue is empty does nothing and succeeds. -/
lemma flush_empty_queue (ph : Phase K Mt A V S Prog Prm St B Sl Er)
    (pcmp : S → S → Option Ordering) (cmpProg cmpMesh cmpState : B → B → Ordering)
    (draw : Object S Prm B Sl → Except FE Unit) (hq : ph.queue = []) :
    ph.flush pcmp cmpProg cmpMesh cmpState draw = (ph, [], Except.ok ()) := by
  obtain ⟨n, t, m, s, q⟩ := ph
  simp only at hq
  subst hq
  rw [Phase.flush]
  simp only [sortQueue_nil]
  rfl

/-- The submissions of a flush whose first criterion sorts by `le` form an
`le`-chain, for every total `le`. -/
lemma flush_sorted_chain (ph : Phase K Mt A V S Prog Prm St B Sl Er)
    (pcmp : S → S → Option Ordering) (cmpProg cmpMesh cmpState : B → B → Ordering)
    (draw : Object S Prm B Sl → Except FE Unit)
    (le : Object S Prm B Sl → Object S Prm B Sl → Bool)
    (htot : ∀ a b, le a b || le b a)
    (hq : sortQueue pcmp cmpProg cmpMesh cmpState ph.sort.head? ph.queue =
      stableSortBy le ph.queue) :
    List.Chain' (fun a b => le a b = true)
      (ph.flush pcmp cmpProg cmpMesh cmpState draw).2.1 := by
  rw [flush_log]
  obtain ⟨t, ht⟩ := submitAll_log_initial draw
    (sortQueue pcmp cmpProg cmpMesh cmpState ph.sort.head? ph.queue)
  have hch : List.Chain' (fun a b => le a b = true)
      (sortQueue pcmp cmpProg cmpMesh cmpState ph.sort.head? ph.queue) := by
    rw [hq]
    exact chain_stableSortBy le htot ph.queue
  rw [ht] at hch
  exact (List.chain'_append.mp hch).1

/-! ## Claim theorems -/

/-- C1: with a memoizing cache, over every sequence of `enqueue` calls the
technique's `compile` runs at most once per distinct essence key; a cached
failure is returned unchanged, with no external call, on every later
`enqueue` with that key; and a miss stores the compile/batch result —
success or failure — in the cache under the key and returns that same
result. -/
theorem phase_compile_at_most_once_per_key [DecidableEq K]
    (toDepth : V → S) (mk : Prog → Mesh A → St → Except Er B)
    (ph : Phase K Mt A V S Prog Prm St B Sl Er)
    (calls : List (Entity Mt A Sl × V)) (k : K) :
    countCompile k (runEnqueues toDepth mk ph calls).2 ≤ 1 ∧
    (∀ (entity : Entity Mt A Sl) (v : V) (er : Er),
       ph.technique.test entity.mesh entity.material = some k →
       ph.memory k = some (Except.error er) →
       ph.enqueue entity v toDepth mk = some (ph, [], Except.error er)) ∧
    (∀ (entity : Entity Mt A Sl) (v : V) ph1 evs r,
       ph.technique.test entity.mesh entity.material = some k →
       ph.memory k = none →
       ph.enqueue entity v toDepth mk = some (ph1, evs, r) →
       ∃ y, ph1.memory k = some y ∧
         ((∃ o, y = Except.ok o ∧ r = Except.ok ()) ∨
          (∃ er, y = Except.error er ∧ r = Except.error er))) := by
  refine ⟨run_countCompile_le_one toDepth mk k calls ph,
    fun entity v er htest hmem => enqueue_hit_err ph entity v toDepth mk k er htest hmem,
    fun entity v ph1 evs r htest hmem henq => ?_⟩
  rcases hmk : mk (ph.technique.compile k v).1
      (instancedMesh entity.mesh (ph.technique.compile k v).2.2.1)
      (ph.technique.compile k v).2.2.2 with er | b
  · rw [enqueue_miss_err ph entity v toDepth mk k er htest hmem hmk] at henq
    simp only [Option.some.injEq, Prod.mk.injEq] at henq
    obtain ⟨hph, -, hr⟩ := henq
    subst hph
    exact ⟨Except.error er, by simp, Or.inr ⟨er, rfl, hr.symm⟩⟩
  · rw [enqueue_miss_ok ph entity v toDepth mk k b htest hmem hmk] at henq
    simp only [Option.some.injEq, Prod.mk.injEq] at henq
    obtain ⟨hph, -, hr⟩ := henq
    subst hph
    exact ⟨Except.ok
        { batch := b,
          params := ph.technique.fix_params entity.material v (ph.technique.compile k v).2.1,
          slice := entity.slice, depth := toDepth v },
      by simp, Or.inl ⟨_, rfl, hr.symm⟩⟩

theorem phase_compile_at_most_once_per_key_witness :
    countCompile 0 (runEnqueues wToDepth wMk wPhase [(wEntity, 1), (wEntity2, 4)]).2 ≤ 1 ∧
    wPhaseErrC.enqueue wEntity 1 wToDepth wMk = some (wPhaseErrC, [], Except.error ()) :=
  ⟨(phase_compile_at_most_once_per_key wToDepth wMk wPhase [(wEntity, 1), (wEntity2, 4)] 0).1,
   (phase_compile_at_most_once_per_key wToDepth wMk wPhaseErrC [] 0).2.1 wEntity 1 () rfl rfl⟩

/-- C2: an `enqueue` that hits a cached success pushes the cached object
with the entity's current slice and freshly patched parameters, makes no
external call (empty event log — no `compile`, no `make_core`) and returns
success. -/
theorem phase_enqueue_cache_hit_fast_path [DecidableEq K]
    (ph : Phase K Mt A V S Prog Prm St B Sl Er) (entity : Entity Mt A Sl)
    (view_info : V) (toDepth : V → S) (mk : Prog → Mesh A → St → Except Er B)
    (k : K) (o : Object S Prm B Sl)
    (htest : ph.technique.test entity.mesh entity.material = some k)
    (hmem : ph.memory k = some (Except.ok o)) :
    ph.enqueue entity view_info toDepth mk =
      some ({ ph with queue := ph.queue ++
          [{ o with slice := entity.slice,
                    params := ph.technique.fix_params entity.material view_info o.params }] },
        [], Except.ok ()) :=
  enqueue_hit ph entity view_info toDepth mk k o htest hmem

theorem phase_enqueue_cache_hit_fast_path_witness :
    wPhaseHit.enqueue wEntity 1 wToDepth wMk =
      some ({ wPhaseHit with
          queue := [{ wObj (some 7) with slice := 5, params := 1 }] },
        [], Except.ok ()) :=
  phase_enqueue_cache_hit_fast_path wPhaseHit wEntity 1 wToDepth wMk 0
    (wObj (some 7)) rfl rfl

/-- C3 (code bug): when the technique's `test` yields no essence, the
source's `enqueue` unwraps the `None` and panics — modelled as the `none`
outcome — instead of signalling an application-level logic error to the
caller as the specification requires. -/
theorem phase_enqueue_failed_test_aborts [DecidableEq K]
    (ph : Phase K Mt A V S Prog Prm St B Sl Er) (entity : Entity Mt A Sl)
    (view_info : V) (toDepth : V → S) (mk : Prog → Mesh A → St → Except Er B)
    (htest : ph.technique.test entity.mesh entity.material = none) :
    ph.enqueue entity view_info toDepth mk = none :=
  enqueue_test_none ph entity view_info toDepth mk htest

theorem phase_enqueue_failed_test_aborts_witness :
    wPhaseNoTest.enqueue wEntity 1 wToDepth wMk = none :=
  phase_enqueue_failed_test_aborts wPhaseNoTest wEntity 1 wToDepth wMk rfl

/-- C10: after a miss compiled at view `v1`, a cache hit at any later view
`v2` pushes an object whose depth is the one recorded at compile time
(`toDepth v1`), not the current call's depth — only the slice and the
parameters are refreshed. -/
theorem phase_enqueue_cache_hit_stale_depth [DecidableEq K]
    (ph ph1 : Phase K Mt A V S Prog Prm St B Sl Er)
    (e1 e2 : Entity Mt A Sl) (v1 v2 : V) (toDepth : V → S)
    (mk : Prog → Mesh A → St → Except Er B) (k : K) (ev1 : List (Ev K))
    (ht1 : ph.technique.test e1.mesh e1.material = some k)
    (ht2 : ph1.technique.test e2.mesh e2.material = some k)
    (hmiss : ph.memory k = none)
    (h1 : ph.enqueue e1 v1 toDepth mk = some (ph1, ev1, Except.ok ())) :
    ∃ o : Object S Prm B Sl,
      ph1.memory k = some (Except.ok o) ∧
      o.depth = toDepth v1 ∧
      ph1.enqueue e2 v2 toDepth mk =
        some ({ ph1 with queue := ph1.queue ++
            [{ o with slice := e2.slice,
                      params := ph1.technique.fix_params e2.material v2 o.params }] },
          [], Except.ok ()) ∧
      (Object.slice { o with slice := e2.slice,
                             params := ph1.technique.fix_params e2.material v2 o.params } =
         e2.slice ∧
       Object.depth { o with slice := e2.slice,
                             params := ph1.technique.fix_params e2.material v2 o.params } =
         toDepth v1) := by
  rcases hmk : mk (ph.technique.compile k v1).1
      (instancedMesh e1.mesh (ph.technique.compile k v1).2.2.1)
      (ph.technique.compile k v1).2.2.2 with er | b
  · rw [enqueue_miss_err ph e1 v1 toDepth mk k er ht1 hmiss hmk] at h1
    simp only [Option.some.injEq, Prod.mk.injEq] at h1
    exact absurd h1.2.2 (by simp)
  · rw [enqueue_miss_ok ph e1 v1 toDepth mk k b ht1 hmiss hmk] at h1
    simp only [Option.some.injEq, Prod.mk.injEq] at h1
    obtain ⟨hph, -, -⟩ := h1
    subst hph
    refine ⟨{ batch := b,
              params := ph.technique.fix_params e1.material v1 (ph.technique.compile k v1).2.1,
              slice := e1.slice, depth := toDepth v1 },
      by simp, rfl, ?_, rfl, rfl⟩
    exact enqueue_hit _ e2 v2 toDepth mk k _ ht2 (by simp)

theorem phase_enqueue_cache_hit_stale_depth_witness :
    ∃ o : Object (Option Int) Int Unit Int,
      wStepPh.memory 0 = some (Except.ok o) ∧
      o.depth = wToDepth 1 ∧
      wStepPh.enqueue wEntity2 4 wToDepth wMk =
        some ({ wStepPh with queue := wStepPh.queue ++
            [{ o with slice := wEntity2.slice,
                      params := wStepPh.technique.fix_params wEntity2.material 4 o.params }] },
          [], Except.ok ()) ∧
      (Object.slice { o with slice := wEntity2.slice,
                             params := wStepPh.technique.fix_params wEntity2.material 4 o.params } =
         wEntity2.slice ∧
       Object.depth { o with slice := wEntity2.slice,
                             params := wStepPh.technique.fix_params wEntity2.material 4 o.params } =
         wToDepth 1) :=
  phase_enqueue_cache_hit_stale_depth wPhase wStepPh wEntity wEntity2 1 4 wToDepth wMk 0
    [Ev.compile 0, Ev.makeCore] rfl rfl rfl rfl

/-- C4: `flush` reorders the queue using at most the first configured
criterion — criteria are never chained, so any two criteria lists with the
same first element give identical submissions, result and final queue —
and with no criterion at all the queue is submitted exactly in enqueue
order. -/
theorem phase_flush_first_criterion_only
    (ph : Phase K Mt A V S Prog Prm St B Sl Er)
    (pcmp : S → S → Option Ordering) (cmpProg cmpMesh cmpState : B → B → Ordering)
    (draw : Object S Prm B Sl → Except FE Unit)
    (s1 s2 : List SortMethod) (hh : s1.head? = s2.head?) :
    ((({ ph with sort := s1 } : Phase K Mt A V S Prog Prm St B Sl Er).flush
          pcmp cmpProg cmpMesh cmpState draw).2 =
        (({ ph with sort := s2 } : Phase K Mt A V S Prog Prm St B Sl Er).flush
          pcmp cmpProg cmpMesh cmpState draw).2 ∧
      (({ ph with sort := s1 } : Phase K Mt A V S Prog Prm St B Sl Er).flush
          pcmp cmpProg cmpMesh cmpState draw).1.queue =
        (({ ph with sort := s2 } : Phase K Mt A V S Prog Prm St B Sl Er).flush
          pcmp cmpProg cmpMesh cmpState draw).1.queue) ∧
    (ph.sort = [] →
      (∃ t, ph.queue = (ph.flush pcmp cmpProg cmpMesh cmpState draw).2.1 ++ t) ∧
      ((∀ o ∈ ph.queue, draw o = Except.ok ()) →
        ph.flush pcmp cmpProg cmpMesh cmpState draw =
          ({ ph with queue := [] }, ph.queue, Except.ok ()))) := by
  constructor
  · exact flush_eq_parts _ _ pcmp cmpProg cmpMesh cmpState draw hh rfl
  · intro hs
    have hq0 : sortQueue pcmp cmpProg cmpMesh cmpState ph.sort.head? ph.queue = ph.queue := by
      rw [hs]
      rfl
    constructor
    · rw [flush_log, hq0]
      exact submitAll_log_initial draw ph.queue
    · intro hok
      have hsub := submitAll_all_ok draw ph.queue hok
      have hfl := flush_ok ph pcmp cmpProg cmpMesh cmpState draw (by rw [hq0, hsub])
      rw [hfl, hq0, hsub]

theorem phase_flush_first_criterion_only_witness :
    (([SortMethod.FrontToBack, SortMethod.Mesh] : List SortMethod).head? =
      ([SortMethod.FrontToBack] : List SortMethod).head?) ∧
    wPhaseOne.flush fpcmp wCmpB wCmpB wCmpB wDrawOk =
      ({ wPhaseOne with queue := [] }, wPhaseOne.queue, Except.ok ()) :=
  ⟨rfl,
   ((phase_flush_first_criterion_only wPhaseOne fpcmp wCmpB wCmpB wCmpB wDrawOk
       [SortMethod.FrontToBack, SortMethod.Mesh] [SortMethod.FrontToBack] rfl).2 rfl).2
     (fun _ _ => rfl)⟩

/-- C5: when the partial depth comparison is lawful (its `Greater` answers
flip to `Less`), a flush under the front-to-back criterion submits in
non-decreasing depth order and under back-to-front in non-increasing depth
order, where `cmp_depth` collapses incomparable (NaN-like) depths to equal
— the comparison is a total function, so no failure is possible. -/
theorem phase_flush_depth_order
    (ph : Phase K Mt A V S Prog Prm St B Sl Er)
    (pcmp : S → S → Option Ordering)
    (hpc : ∀ a b, pcmp a b = some Ordering.gt ↔ pcmp b a = some Ordering.lt)
    (cmpProg cmpMesh cmpState : B → B → Ordering)
    (draw : Object S Prm B Sl → Except FE Unit) :
    (ph.sort.head? = some SortMethod.FrontToBack →
      List.Chain' (fun a b => cmpDepth pcmp a b ≠ Ordering.gt)
        (ph.flush pcmp cmpProg cmpMesh cmpState draw).2.1) ∧
    (ph.sort.head? = some SortMethod.BackToFront →
      List.Chain' (fun a b => cmpDepth pcmp b a ≠ Ordering.gt)
        (ph.flush pcmp cmpProg cmpMesh cmpState draw).2.1) := by
  constructor
  · intro hs
    have hch := flush_sorted_chain ph pcmp cmpProg cmpMesh cmpState draw
      (fun a b => decide (cmpDepth pcmp a b ≠ Ordering.gt))
      (fun a b => cmpDepth_total pcmp hpc a b)
      (by rw [hs]; rfl)
    exact hch.imp (fun a b h => of_decide_eq_true h)
  · intro hs
    have hch := flush_sorted_chain ph pcmp cmpProg cmpMesh cmpState draw
      (fun a b => decide (cmpDepth pcmp b a ≠ Ordering.gt))
      (fun a b => cmpDepth_total pcmp hpc b a)
      (by rw [hs]; rfl)
    exact hch.imp (fun a b h => of_decide_eq_true h)

theorem phase_flush_depth_order_witness :
    (∀ a b, fpcmp a b = some Ordering.gt ↔ fpcmp b a = some Ordering.lt) ∧
    List.Chain' (fun a b => cmpDepth fpcmp a b ≠ Ordering.gt)
      (wPhaseFtB.flush fpcmp wCmpB wCmpB wCmpB wDrawOk).2.1 ∧
    List.Chain' (fun a b => cmpDepth fpcmp b a ≠ Ordering.gt)
      (wPhaseBtF.flush fpcmp wCmpB wCmpB wCmpB wDrawOk).2.1 :=
  ⟨fpcmp_flip,
   (phase_flush_depth_order wPhaseFtB fpcmp fpcmp_flip wCmpB wCmpB wCmpB wDrawOk).1 rfl,
   (phase_flush_depth_order wPhaseBtF fpcmp fpcmp_flip wCmpB wCmpB wCmpB wDrawOk).2 rfl⟩

/-- C6: `flush` submits the post-sort objects strictly in queue order — the
submission log is an initial segment of the sorted queue — and on the first
submission error it returns that error at once: everything before the
failing object (and the failing attempt itself) was submitted and stands,
nothing after it is attempted. -/
theorem phase_flush_in_order_first_error
    (ph : Phase K Mt A V S Prog Prm St B Sl Er)
    (pcmp : S → S → Option Ordering) (cmpProg cmpMesh cmpState : B → B → Ordering)
    (draw : Object S Prm B Sl → Except FE Unit)
    (pre : List (Object S Prm B Sl)) (o : Object S Prm B Sl)
    (post : List (Object S Prm B Sl)) (e : FE)
    (hsplit : sortQueue pcmp cmpProg cmpMesh cmpState ph.sort.head? ph.queue =
      pre ++ o :: post)
    (hpre : ∀ x ∈ pre, draw x = Except.ok ())
    (ho : draw o = Except.error e) :
    (∃ t, sortQueue pcmp cmpProg cmpMesh cmpState ph.sort.head? ph.queue =
        (ph.flush pcmp cmpProg cmpMesh cmpState draw).2.1 ++ t) ∧
    ph.flush pcmp cmpProg cmpMesh cmpState draw =
      ({ ph with queue := sortQueue pcmp cmpProg cmpMesh cmpState ph.sort.head? ph.queue },
        pre ++ [o], Except.error e) := by
  have hsub : submitAll draw (sortQueue pcmp cmpProg cmpMesh cmpState ph.sort.head? ph.queue) =
      (pre ++ [o], Except.error e) := by
    rw [hsplit]
    exact submitAll_first_error draw o post e ho pre hpre
  constructor
  · rw [flush_log]
    exact submitAll_log_initial draw _
  · have hfl := flush_err ph pcmp cmpProg cmpMesh cmpState draw e (by rw [hsub])
    rw [hfl, hsub]

theorem phase_flush_in_order_first_error_witness :
    (sortQueue fpcmp wCmpB wCmpB wCmpB wPhaseQ3.sort.head? wPhaseQ3.queue =
      [wObj (some 1)] ++ wObj (some 2) :: [wObj (some 3)]) ∧
    wPhaseQ3.flush fpcmp wCmpB wCmpB wCmpB wDrawSel =
      ({ wPhaseQ3 with queue := wPhaseQ3.queue },
        [wObj (some 1), wObj (some 2)], Except.error ()) :=
  ⟨rfl,
   (phase_flush_in_order_first_error wPhaseQ3 fpcmp wCmpB wCmpB wCmpB wDrawSel
       [wObj (some 1)] (wObj (some 2)) [wObj (some 3)] () rfl
       (by intro x hx; rw [List.mem_singleton] at hx; subst hx; rfl) rfl).2⟩

/-- C7 counterexample: a flush whose (single) submission fails leaves the
queue non-empty — the source returns the error before
`queue.objects.clear()` — so "after every call to flush the queue is
empty" is false as stated. -/
theorem phase_flush_queue_not_cleared_on_error :
    (wPhaseOne.flush fpcmp wCmpB wCmpB wCmpB wDrawErr).1.queue ≠ [] := by
  decide

/-- C7 (amended): after every flush that returns success the queue is
empty, and a second flush with no intervening enqueue — with any renderer —
submits nothing and returns success. -/
theorem phase_flush_success_clears_queue {FE2 : Type}
    (ph : Phase K Mt A V S Prog Prm St B Sl Er)
    (pcmp : S → S → Option Ordering) (cmpProg cmpMesh cmpState : B → B → Ordering)
    (draw : Object S Prm B Sl → Except FE Unit)
    (draw2 : Object S Prm B Sl → Except FE2 Unit)
    (h : (ph.flush pcmp cmpProg cmpMesh cmpState draw).2.2 = Except.ok ()) :
    (ph.flush pcmp cmpProg cmpMesh cmpState draw).1.queue = [] ∧
    (ph.flush pcmp cmpProg cmpMesh cmpState draw).1.flush pcmp cmpProg cmpMesh cmpState draw2 =
      ((ph.flush pcmp cmpProg cmpMesh cmpState draw).1, [], Except.ok ()) := by
  rcases hs : (submitAll draw
      (sortQueue pcmp cmpProg cmpMesh cmpState ph.sort.head? ph.queue)).2 with e | u
  · rw [flush_err ph pcmp cmpProg cmpMesh cmpState draw e hs] at h
    exact absurd h (by simp)
  · cases u
    have hfl := flush_ok ph pcmp cmpProg cmpMesh cmpState draw hs
    rw [hfl]
    exact ⟨rfl, flush_empty_queue _ pcmp cmpProg cmpMesh cmpState draw2 rfl⟩

theorem phase_flush_success_clears_queue_witness :
    ((wPhaseFtB.flush fpcmp wCmpB wCmpB wCmpB wDrawOk).2.2 = Except.ok ()) ∧
    ((wPhaseFtB.flush fpcmp wCmpB wCmpB wCmpB wDrawOk).1.queue = [] ∧
     (wPhaseFtB.flush fpcmp wCmpB wCmpB wCmpB wDrawOk).1.flush fpcmp wCmpB wCmpB wCmpB wDrawErr =
       ((wPhaseFtB.flush fpcmp wCmpB wCmpB wCmpB wDrawOk).1, [], Except.ok ())) :=
  ⟨rfl, phase_flush_success_clears_queue wPhaseFtB fpcmp wCmpB wCmpB wCmpB wDrawOk wDrawErr rfl⟩

/-- C8: `Scene::draw` runs the whole enqueue stage first, invokes `flush`
at most once, and distinguishes the failure stage: an enqueue-stage error
comes back wrapped as `Error::Batch` with no flush invoked, a flush-stage
error as `Error::Flush` after the full enqueue-sort-flush trace. -/
theorem scene_draw_stage_separation {PS Obj BE FEr : Type}
    (ea : PS → PS × Except BE Unit) (sp : PS → PS)
    (fp : PS → PS × List Obj × Except FEr Unit) (ph : PS) :
    ((sceneDraw ea sp fp ph).trace.head? = some Stage.enqueueAll ∧
      (sceneDraw ea sp fp ph).trace.count Stage.flushStage ≤ 1) ∧
    (∀ e : BE, (ea ph).2 = Except.error e →
      (sceneDraw ea sp fp ph).result = Except.error (SceneErr.Batch e) ∧
      Stage.flushStage ∉ (sceneDraw ea sp fp ph).trace) ∧
    ((ea ph).2 = Except.ok () →
      (sceneDraw ea sp fp ph).trace =
        [Stage.enqueueAll, Stage.sortStage, Stage.flushStage] ∧
      (∀ e : FEr, (fp (sp (ea ph).1)).2.2 = Except.error e →
        (sceneDraw ea sp fp ph).result = Except.error (SceneErr.Flush e)) ∧
      ((fp (sp (ea ph).1)).2.2 = Except.ok () →
        (sceneDraw ea sp fp ph).result = Except.ok ())) := by
  rcases hea : (ea ph).2 with e0 | u0
  · have hout : sceneDraw ea sp fp ph =
        ⟨(ea ph).1, [], [Stage.enqueueAll], Except.error (SceneErr.Batch e0)⟩ := by
      simp only [sceneDraw]
      rw [hea]
    refine ⟨⟨by rw [hout]; rfl, ?_⟩, ?_, ?_⟩
    · rw [hout]
      show List.count Stage.flushStage [Stage.enqueueAll] ≤ 1
      decide
    · intro e he
      injection he with h
      subst h
      refine ⟨by rw [hout], ?_⟩
      rw [hout]
      show Stage.flushStage ∉ [Stage.enqueueAll]
      decide
    · intro h0
      exact absurd h0 (by simp)
  · cases u0
    rcases hfp : (fp (sp (ea ph).1)).2.2 with e1 | u1
    · have hout : sceneDraw ea sp fp ph =
          ⟨(fp (sp (ea ph).1)).1, (fp (sp (ea ph).1)).2.1,
            [Stage.enqueueAll, Stage.sortStage, Stage.flushStage],
            Except.error (SceneErr.Flush e1)⟩ := by
        simp only [sceneDraw]
        rw [hea, hfp]
      refine ⟨⟨by rw [hout]; rfl, ?_⟩, ?_, ?_⟩
      · rw [hout]
        show List.count Stage.flushStage
          [Stage.enqueueAll, Stage.sortStage, Stage.flushStage] ≤ 1
        decide
      · intro e he
        exact absurd he (by simp)
      · intro _
        refine ⟨by rw [hout], ?_, ?_⟩
        · intro e he
          injection he with h
          subst h
          rw [hout]
        · intro h1
          exact absurd h1 (by simp)
    · cases u1
      have hout : sceneDraw ea sp fp ph =
          ⟨(fp (sp (ea ph).1)).1, (fp (sp (ea ph).1)).2.1,
            [Stage.enqueueAll, Stage.sortStage, Stage.flushStage], Except.ok ()⟩ := by
        simp only [sceneDraw]
        rw [hea, hfp]
      refine ⟨⟨by rw [hout]; rfl, ?_⟩, ?_, ?_⟩
      · rw [hout]
        show List.count Stage.flushStage
          [Stage.enqueueAll, Stage.sortStage, Stage.flushStage] ≤ 1
        decide
      · intro e he
        exact absurd he (by simp)
      · intro _
        refine ⟨by rw [hout], ?_, fun _ => by rw [hout]⟩
        intro e he
        exact absurd he (by simp)

theorem scene_draw_stage_separation_witness :
    ((sceneDraw wEaErr wSp wFp 0).result = Except.error (SceneErr.Batch ()) ∧
      Stage.flushStage ∉ (sceneDraw wEaErr wSp wFp 0).trace) ∧
    (sceneDraw wEa wSp wFpErr 0).result = Except.error (SceneErr.Flush ()) :=
  ⟨(scene_draw_stage_separation wEaErr wSp wFp 0).2.1 () rfl,
   (((scene_draw_stage_separation wEa wSp wFpErr 0).2.2 rfl).2.1 () rfl)⟩

/-- C9: `PhaseHarness::draw` resets the renderer, applies the clear exactly
when clear data is configured, runs the phases in list order stopping at
the first failing phase (whose own draws stand, later phases never run),
and when every phase succeeds returns the accumulated command buffer. -/
theorem harness_draw_sequence {CD Obj E : Type} (clear : Option CD)
    (phases : List (PhaseRun Obj E)) :
    ((harnessDraw clear phases).1 =
        Cmd.reset :: (clearCmds clear ++ (runPhases phases).1.map Cmd.draw) ∧
      @clearCmds CD Obj none = [] ∧
      (∀ d : CD, @clearCmds CD Obj (some d) = [Cmd.clear d])) ∧
    (∀ (pre : List (PhaseRun Obj E)) (bad : PhaseRun Obj E)
       (post : List (PhaseRun Obj E)) (e : E),
      phases = pre ++ bad :: post →
      (∀ p ∈ pre, p.result = Except.ok ()) →
      bad.result = Except.error e →
      runPhases phases = (drawsOf pre ++ bad.draws, Except.error e) ∧
      (harnessDraw clear phases).2 = Except.error e) ∧
    ((∀ p ∈ phases, p.result = Except.ok ()) →
      runPhases phases = (drawsOf phases, Except.ok ()) ∧
      (harnessDraw clear phases).2 = Except.ok ((harnessDraw clear phases).1)) := by
  refine ⟨⟨?_, rfl, fun d => rfl⟩, ?_, ?_⟩
  · simp only [harnessDraw]
    rcases (runPhases phases).2 with e | u
    · rfl
    · rfl
  · intro pre bad post e hsplit hpre hbad
    subst hsplit
    have hr := runPhases_first_error bad post e hbad pre hpre
    refine ⟨hr, ?_⟩
    simp only [harnessDraw]
    rw [hr]
  · intro hok
    have hr := runPhases_all_ok phases hok
    refine ⟨hr, ?_⟩
    simp only [harnessDraw]
    rw [hr]

theorem harness_draw_sequence_witness :
    (([wRunOk, wRunBad, wRunOk] : List (PhaseRun Nat Unit)) =
      [wRunOk] ++ wRunBad :: [wRunOk]) ∧
    runPhases [wRunOk, wRunBad, wRunOk] = (drawsOf [wRunOk] ++ wRunBad.draws, Except.error ()) ∧
    (harnessDraw (some 0 : Option Nat) [wRunOk, wRunBad, wRunOk]).2 = Except.error () :=
  ⟨rfl,
   (harness_draw_sequence (some 0 : Option Nat) [wRunOk, wRunBad, wRunOk]).2.1
     [wRunOk] wRunBad [wRunOk] () rfl
     (by intro p hp; rw [List.mem_singleton] at hp; subst hp; rfl) rfl⟩
